import Mathlib

/-!
Verification of the filesystem-backed asset I/O layer
(`crates/bevy_asset/src/io/file/mod.rs` and
`crates/bevy_asset/src/io/file/file_asset.rs`).

The Rust code is shallowly embedded: paths become a structure of an
absolute-flag plus a list of string components mirroring `std::path::Path`
join / strip_prefix / extension semantics; the filesystem becomes an
explicit state (a list of files and a list of directories); fallible
operations return `Except`; the `async_lock::Semaphore` used as the file
descriptor limiter becomes an explicit counting transition system; the
limiter interactions of each reader operation become the list of
acquire/release actions that operation performs, in source order.
-/

/-- ASCII lowercasing of one character, mirroring Rust `u8::to_ascii_lowercase`. -/
def asciiLower (c : Char) : Char :=
  if 'A' ≤ c ∧ c ≤ 'Z' then Char.ofNat (c.toNat + 32) else c

/-- Mirrors Rust `str::eq_ignore_ascii_case`. -/
def eqIgnoreAsciiCase (a b : String) : Bool :=
  a.data.map asciiLower == b.data.map asciiLower

/-- Index of the last occurrence of `c` in the list, if any. -/
def lastIdxOf (c : Char) : List Char → Option Nat
  | [] => none
  | a :: rest =>
    match lastIdxOf c rest with
    | some i => some (i + 1)
    | none => if a = c then some 0 else none

/-- Mirrors Rust `Path::extension` on one file-name component: the portion
after the last dot, unless the name is `..`, has no dot, or its only dot is
the leading character. -/
def rustExtension (s : String) : Option String :=
  if s = ".." then none
  else
    match lastIdxOf '.' s.data with
    | none => none
    | some 0 => none
    | some i => some (String.mk (s.data.drop (i + 1)))

/-- Embedding of `std::path::PathBuf`: an absolute-path flag plus the list
of normal components. -/
structure RustPath where
  absolute : Bool
  components : List String
deriving DecidableEq

/-- Mirrors Rust `Path::join`: an absolute argument replaces the base. -/
def joinPath (base p : RustPath) : RustPath :=
  if p.absolute then p else ⟨base.absolute, base.components ++ p.components⟩

/-- Mirrors Rust `Path::strip_prefix` (lexical component-wise prefix removal);
`none` is the `Err(StripPrefixError)` case. -/
def stripRoot (base p : RustPath) : Option RustPath :=
  if base.absolute = p.absolute ∧ base.components.isPrefixOf p.components then
    some ⟨false, p.components.drop base.components.length⟩
  else none

/-- Mirrors Rust `Path::parent`: drop the final component; `none` when there
is no component to drop. -/
def parentOf (p : RustPath) : Option RustPath :=
  match p.components with
  | [] => none
  | _ :: _ => some ⟨p.absolute, p.components.dropLast⟩

/-- All component-wise prefixes of `p` (the directories `create_dir_all p`
guarantees to exist), `p` itself included. -/
def prefixPathsOf (p : RustPath) : List RustPath :=
  (List.range (p.components.length + 1)).map (fun n => ⟨p.absolute, p.components.take n⟩)

/-- `isUnder d p` holds when `p` is `d` itself or lexically inside `d`. -/
def isUnder (d p : RustPath) : Bool :=
  d.absolute = p.absolute && d.components.isPrefixOf p.components

/-- Mirrors `Path::extension` of a full path: the extension of its final
component. -/
def pathExtension (p : RustPath) : Option String :=
  match p.components.getLast? with
  | none => none
  | some s => rustExtension s

/-- Modelled from the spec: `get_meta_path` lives in `crates/bevy_asset/src/io/mod.rs`,
which is not part of this source tree; the spec defines it as the pure
transformation appending the fixed `.meta` suffix to the final path segment. -/
def get_meta_path (p : RustPath) : RustPath :=
  ⟨p.absolute, appendMetaToLast p.components⟩
where
  appendMetaToLast : List String → List String
    | [] => []
    | [s] => [s ++ ".meta"]
    | s :: rest => s :: appendMetaToLast rest

/-- Spec-language predicate (for comparison with the code's filter): the final
path segment ends with the metadata suffix `.meta`, compared ASCII
case-insensitively. -/
def finalSegmentEndsWithMeta (p : RustPath) : Bool :=
  match p.components.getLast? with
  | none => false
  | some s => List.isSuffixOf (".meta".data.map asciiLower) (s.data.map asciiLower)

/-- Error kinds of `std::io::ErrorKind` that this layer distinguishes. -/
inductive IoErrorKind
  | notFound
  | permissionDenied
  | invalidInput
  | other
deriving DecidableEq

/-- Embedding of `AssetReaderError`. -/
inductive AssetReaderError
  | notFound (p : RustPath)
  | io (k : IoErrorKind)
deriving DecidableEq

/-- Embedding of `AssetWriterError` (a wrapper around an I/O error). -/
inductive AssetWriterError
  | io (k : IoErrorKind)
deriving DecidableEq

/-- Outcome of one `File::open` call: the opened file's contents, or the
error kind the OS reported. -/
inductive OpenOutcome
  | success (contents : List Nat)
  | failure (k : IoErrorKind)
deriving DecidableEq

/-- Explicit filesystem state: the files (path with contents as bytes) and
the set of existing directories. -/
structure FileSys where
  files : List (RustPath × List Nat)
  dirs : List RustPath
deriving DecidableEq

/-- Contents of the file at `p`, if present. -/
def lookupFile (fs : FileSys) (p : RustPath) : Option (List Nat) :=
  (fs.files.find? (fun e => e.1 = p)).map Prod.snd

/-- Create or truncate the file at `p` with contents `b`. -/
def insertFile (fs : FileSys) (p : RustPath) (b : List Nat) : FileSys :=
  { fs with files := (p, b) :: fs.files.filter (fun e => ¬ e.1 = p) }

/-- Mirrors `create_dir_all`: every prefix of `p` becomes an existing
directory. -/
def createDirAll (fs : FileSys) (p : RustPath) : FileSys :=
  { fs with dirs := prefixPathsOf p ++ fs.dirs }

/-- Directory existence in the filesystem state. -/
def dirExists (fs : FileSys) (p : RustPath) : Bool :=
  fs.dirs.contains p

/-- Mirrors `remove_dir_all`: recursively delete `p`; `NotFound` when `p` is
not an existing directory. -/
def removeDirAll (fs : FileSys) (p : RustPath) : Except IoErrorKind FileSys :=
  if fs.dirs.contains p then
    .ok { files := fs.files.filter (fun e => ¬ isUnder p e.1 = true),
          dirs := fs.dirs.filter (fun d => ¬ isUnder p d = true) }
  else .error .notFound

/-- The directory `p` has no entry strictly below it. -/
def dirIsEmpty (fs : FileSys) (p : RustPath) : Bool :=
  fs.files.all (fun e => ¬ isUnder p e.1) &&
    fs.dirs.all (fun d => ¬ (isUnder p d ∧ d ≠ p))

/-- `File::open` against the explicit filesystem: succeeds with the contents
when the file exists, otherwise fails with `NotFound`. -/
def fsOpen (fs : FileSys) (p : RustPath) : OpenOutcome :=
  match lookupFile fs p with
  | some c => .success c
  | none => .failure .notFound

/-- Embedding of `FileAssetReader` (`mod.rs`): a root path plus the capacity
of its `descriptor_counter` semaphore, fixed at construction. -/
structure FileAssetReader where
  root_path : RustPath
  capacity : Nat
deriving DecidableEq

/-- Embedding of `AssetReader::read` for `FileAssetReader`: acquire a permit
(modelled separately as the action trace `readActions`), join the root with
the caller's path, open it; a `NotFound` open failure becomes
`AssetReaderError::NotFound(full_path)`, any other failure is converted into
a generic I/O error. `openf` is the `File::open` oracle. -/
def FileAssetReader.read (r : FileAssetReader) (openf : RustPath → OpenOutcome)
    (path : RustPath) : Except AssetReaderError (List Nat) :=
  let full_path := joinPath r.root_path path
  match openf full_path with
  | .success c => .ok c
  | .failure k =>
    if k = IoErrorKind.notFound then .error (.notFound full_path)
    else .error (.io k)

/-- Embedding of `AssetReader::read_meta`: identical to `read`, operating on
`get_meta_path(path)`. -/
def FileAssetReader.read_meta (r : FileAssetReader) (openf : RustPath → OpenOutcome)
    (path : RustPath) : Except AssetReaderError (List Nat) :=
  let full_path := joinPath r.root_path (get_meta_path path)
  match openf full_path with
  | .success c => .ok c
  | .failure k =>
    if k = IoErrorKind.notFound then .error (.notFound full_path)
    else .error (.io k)

/-- Possible fates of one raw directory entry inside `read_directory`'s
`filter_map` closure: skipped, yielded as a root-relative path, or a panic
(the `strip_prefix(..).unwrap()` failing). -/
inductive EntryResult
  | skip
  | yield (p : RustPath)
  | panic
deriving DecidableEq

/-- Embedding of the `filter_map` closure in `AssetReader::read_directory`:
an `Err` raw entry (`f.ok()` returning `None`) is skipped; an entry whose
extension case-insensitively equals `meta` is skipped; otherwise the root
prefix is stripped with `unwrap` (a panic when stripping fails) and the
relative path is yielded. -/
def processEntry (root : RustPath) (e : Option RustPath) : EntryResult :=
  match e with
  | none => .skip
  | some path =>
    match pathExtension path with
    | some ext =>
      if eqIgnoreAsciiCase ext "meta" then .skip
      else
        match stripRoot root path with
        | some rel => .yield rel
        | none => .panic
    | none =>
      match stripRoot root path with
      | some rel => .yield rel
      | none => .panic

/-- The entry-by-entry outcomes of the stream `read_directory` returns, for
the given raw entries (`none` = an `Err` entry from `read_dir`). -/
def readDirectoryListing (root : RustPath) (entries : List (Option RustPath)) :
    List EntryResult :=
  entries.map (processEntry root)

/-- The code's filter criterion: the entry's extension case-insensitively
equals `meta`. -/
def extMatchesMeta (p : RustPath) : Bool :=
  match pathExtension p with
  | some ext => eqIgnoreAsciiCase ext "meta"
  | none => false

/-- Primitive effects an operation performs against the descriptor limiter
and the filesystem. -/
inductive IoAction
  | acq
  | fsOp
  | rel
deriving DecidableEq

/-- Limiter/filesystem action trace of `AssetReader::read`: acquire the
permit, open the file, and release when the returned `SemaphoreFile`
(holding the `SemaphoreGuard`) is dropped. -/
def readActions : List IoAction := [.acq, .fsOp, .rel]

/-- Limiter/filesystem action trace of `AssetReader::read_meta` (same shape
as `read`). -/
def readMetaActions : List IoAction := [.acq, .fsOp, .rel]

/-- Limiter/filesystem action trace of `AssetReader::is_directory`: acquire
`_guard`, query the metadata, release when `_guard` drops at the end of the
call. -/
def isDirectoryActions : List IoAction := [.acq, .fsOp, .rel]

/-- Limiter/filesystem action trace of `AssetReader::read_directory`: it
calls `read_dir` without ever touching `descriptor_counter`. -/
def readDirectoryActions : List IoAction := [.fsOp]

/-- Effect of one action on the outstanding-permit count. -/
def applyAction : IoAction → Nat → Nat
  | .acq, c => c + 1
  | .rel, c => c - 1
  | .fsOp, c => c

/-- The successive outstanding-permit counts observed while a single task
runs the given actions alone, starting from count `c` (first element: the
count on entry). -/
def countTrajectory : List IoAction → Nat → List Nat
  | [], c => [c]
  | a :: rest, c => c :: countTrajectory rest (applyAction a c)

/-- Outcome of one semaphore acquisition attempt: granted, or the caller is
suspended until a permit frees up. `async_lock::Semaphore::acquire` has no
failure outcome. -/
inductive AcquireOutcome
  | granted
  | suspended
deriving DecidableEq

/-- One acquisition attempt against the counting semaphore. -/
def acquireAttempt (outstanding capacity : Nat) : AcquireOutcome :=
  if outstanding < capacity then .granted else .suspended

/-- State of the concurrent system: the limiter capacity, the outstanding
permit count, and the remaining action list of every in-flight task. -/
structure SysState where
  capacity : Nat
  outstanding : Nat
  tasks : List (List IoAction)

/-- Interleaving semantics: any task may take its next action; an `acq` step
is enabled only while `outstanding < capacity` — a task whose next action is
`acq` at full capacity has no step and stays suspended (it is never removed
or failed). -/
inductive SysStep : SysState → SysState → Prop
  | acq (s : SysState) (i : Nat) (rest : List IoAction) :
      s.tasks.get? i = some (IoAction.acq :: rest) →
      s.outstanding < s.capacity →
      SysStep s ⟨s.capacity, s.outstanding + 1, s.tasks.set i rest⟩
  | fsOp (s : SysState) (i : Nat) (rest : List IoAction) :
      s.tasks.get? i = some (IoAction.fsOp :: rest) →
      SysStep s ⟨s.capacity, s.outstanding, s.tasks.set i rest⟩
  | rel (s : SysState) (i : Nat) (rest : List IoAction) :
      s.tasks.get? i = some (IoAction.rel :: rest) →
      SysStep s ⟨s.capacity, s.outstanding - 1, s.tasks.set i rest⟩

/-- Initial state: capacity `C`, no permit outstanding, the given operations
pending. -/
def initState (C : Nat) (ops : List (List IoAction)) : SysState := ⟨C, 0, ops⟩

/-- States reachable by interleaving the pending operations. -/
inductive Reachable (C : Nat) (ops : List (List IoAction)) : SysState → Prop
  | init : Reachable C ops (initState C ops)
  | step {s t : SysState} : Reachable C ops s → SysStep s t → Reachable C ops t

/-- Log events emitted through `tracing` (only the one relevant to the
claims is modelled). -/
inductive LogEvent
  | loggedError (k : IoErrorKind)
deriving DecidableEq

/-- Embedding of `FileAssetWriter` (`mod.rs`): just the root path. -/
structure FileAssetWriter where
  root_path : RustPath
deriving DecidableEq

/-- Embedding of `FileAssetWriter::new`: join the base path with the given
path; when `create_root` is set, attempt `create_dir_all` on the root
(`createErr` is that call's outcome) and, on failure, only log the error;
construction always completes with the joined root path. -/
def FileAssetWriter.new (base p : RustPath) (create_root : Bool)
    (createErr : Option IoErrorKind) : FileAssetWriter × List LogEvent :=
  let root_path := joinPath base p
  let logs :=
    if create_root then
      match createErr with
      | some e => [LogEvent.loggedError e]
      | none => []
    else []
  (⟨root_path⟩, logs)

/-- Embedding of `AssetWriter::write`: join root and path, `create_dir_all`
the parent when there is one, then `File::create`; `createOutcome` is the
`File::create` result (`some e` = the OS failed with kind `e`), and on
success the bytes `b` subsequently written through the returned writer land
in the file. Returns the operation result together with the filesystem state
after the operation. -/
def FileAssetWriter.write (w : FileAssetWriter) (fs : FileSys)
    (createOutcome : Option IoErrorKind) (p : RustPath) (b : List Nat) :
    Except AssetWriterError Unit × FileSys :=
  let full_path := joinPath w.root_path p
  let fs1 :=
    match parentOf full_path with
    | some parent => createDirAll fs parent
    | none => fs
  match createOutcome with
  | some e => (.error (.io e), fs1)
  | none => (.ok (), insertFile fs1 full_path b)

/-- Embedding of `AssetWriter::write_meta`: as `write`, targeting
`get_meta_path(path)`. -/
def FileAssetWriter.write_meta (w : FileAssetWriter) (fs : FileSys)
    (createOutcome : Option IoErrorKind) (p : RustPath) (b : List Nat) :
    Except AssetWriterError Unit × FileSys :=
  FileAssetWriter.write w fs createOutcome (get_meta_path p) b

/-- Embedding of `AssetWriter::remove_assets_in_directory`: `remove_dir_all`
on the joined path, then `create_dir_all` on the same path — two sequential
filesystem operations. -/
def FileAssetWriter.remove_assets_in_directory (w : FileAssetWriter)
    (fs : FileSys) (p : RustPath) : Except AssetWriterError FileSys :=
  let full_path := joinPath w.root_path p
  match removeDirAll fs full_path with
  | .error e => .error (.io e)
  | .ok fs1 => .ok (createDirAll fs1 full_path)

/-- Embedding of the `AsyncSeekForward` impl for `File`: convert the `u64`
offset to `i64` (`try_into`, failing for offsets of `2^63` and above) and on
success seek from the current position; on failure report an
`InvalidInput` I/O error. `pos` is the file's current position. -/
def File.poll_seek_forward (pos offset : Nat) : Except IoErrorKind Nat :=
  if offset < 2 ^ 63 then .ok (pos + offset)
  else .error .invalidInput

/-- Embedding of the `AsyncSeekForward` impl for `SemaphoreFile`: the same
conversion and check, delegating the seek to the inner file. -/
def SemaphoreFile.poll_seek_forward (pos offset : Nat) : Except IoErrorKind Nat :=
  if offset < 2 ^ 63 then .ok (pos + offset)
  else .error .invalidInput

/-- A sample filesystem holding a nested subdirectory below `/r/cache`. -/
def sampleNestedFs : FileSys :=
  FileSys.mk [(⟨true, ["r", "cache", "sub", "f.png"]⟩, [1])]
    [⟨true, ["r"]⟩, ⟨true, ["r", "cache"]⟩, ⟨true, ["r", "cache", "sub"]⟩]

/-- The filesystem left by clearing `cache` in `sampleNestedFs`. -/
def sampleClearedFs : FileSys :=
  FileSys.mk []
    [⟨true, []⟩, ⟨true, ["r"]⟩, ⟨true, ["r", "cache"]⟩, ⟨true, ["r"]⟩]

/-- C5: `is_directory` acquires a descriptor-limiter permit before querying
the filesystem — its outstanding-permit trajectory from any count `c` is
`[c, c+1, c+1, c]`, so the count is raised while the metadata query runs —
while `read_directory` performs its enumeration without touching the
limiter, its trajectory staying at `c` for its whole duration. -/
theorem read_directory_ungated_is_directory_gated (c : Nat) :
    countTrajectory isDirectoryActions c = [c, c + 1, c + 1, c] ∧
    countTrajectory readDirectoryActions c = [c, c] := by
  constructor <;>
    simp [countTrajectory, applyAction, isDirectoryActions, readDirectoryActions]

/-- C6: a requested forward-seek offset that does not fit in a signed 64-bit
integer (`2^63 ≤ offset`) makes `poll_seek_forward` — on both `File` and
`SemaphoreFile` — return an `InvalidInput` I/O error rather than seek by a
truncated offset; every representable offset seeks forward from the current
position by exactly that offset. -/
theorem seek_forward_overflow_checked (pos offset : Nat) (h : offset < 2 ^ 64) :
    (2 ^ 63 ≤ offset →
      File.poll_seek_forward pos offset = .error .invalidInput ∧
      SemaphoreFile.poll_seek_forward pos offset = .error .invalidInput) ∧
    (offset < 2 ^ 63 →
      File.poll_seek_forward pos offset = .ok (pos + offset) ∧
      SemaphoreFile.poll_seek_forward pos offset = .ok (pos + offset)) := by
  refine ⟨fun hge => ?_, fun hlt => ?_⟩
  · have hnl : ¬ offset < 2 ^ 63 := Nat.not_lt.mpr hge
    exact ⟨by simp only [File.poll_seek_forward, if_neg hnl],
           by simp only [SemaphoreFile.poll_seek_forward, if_neg hnl]⟩
  · exact ⟨by simp only [File.poll_seek_forward, if_pos hlt],
           by simp only [SemaphoreFile.poll_seek_forward, if_pos hlt]⟩

/-- Witness for C6 at the smallest unrepresentable offset and at offset 7. -/
theorem seek_forward_overflow_checked_witness :
    File.poll_seek_forward 5 (2 ^ 63) = .error .invalidInput ∧
    SemaphoreFile.poll_seek_forward 5 7 = .ok 12 :=
  ⟨((seek_forward_overflow_checked 5 (2 ^ 63) (by norm_num)).1 (by norm_num)).1,
   ((seek_forward_overflow_checked 5 7 (by norm_num)).2 (by norm_num)).2⟩

/-- C9: `FileAssetWriter::new` always returns a constructed writer whose
root is the joined path, for every `create_root` flag and every outcome of
the root-creation attempt; when `create_root` is set and creation fails, the
failure is only logged. -/
theorem writer_new_always_constructs (base p : RustPath) (cr : Bool)
    (res : Option IoErrorKind) (e : IoErrorKind) :
    (FileAssetWriter.new base p cr res).1 = ⟨joinPath base p⟩ ∧
    (FileAssetWriter.new base p true (some e)).2 = [LogEvent.loggedError e] := by
  constructor <;> simp [FileAssetWriter.new]

/-- C3: when the open inside `read` (resp. `read_meta`) fails with
`NotFound`, the error carries the absolute resolved path `root.join(p)`
(resp. `root.join(get_meta_path p)`); any other open failure kind is
returned as a generic I/O error. -/
theorem read_notfound_carries_absolute_path (r : FileAssetReader)
    (openf : RustPath → OpenOutcome) (p : RustPath) (k : IoErrorKind) :
    (openf (joinPath r.root_path p) = .failure .notFound →
      r.read openf p = .error (.notFound (joinPath r.root_path p))) ∧
    (k ≠ .notFound → openf (joinPath r.root_path p) = .failure k →
      r.read openf p = .error (.io k)) ∧
    (openf (joinPath r.root_path (get_meta_path p)) = .failure .notFound →
      r.read_meta openf p = .error (.notFound (joinPath r.root_path (get_meta_path p)))) ∧
    (k ≠ .notFound → openf (joinPath r.root_path (get_meta_path p)) = .failure k →
      r.read_meta openf p = .error (.io k)) := by
  refine ⟨fun h => ?_, fun hk h => ?_, fun h => ?_, fun hk h => ?_⟩
  · simp [FileAssetReader.read, h]
  · simp [FileAssetReader.read, h, hk]
  · simp [FileAssetReader.read_meta, h]
  · simp [FileAssetReader.read_meta, h, hk]

/-- Witness for C3: a reader rooted at the absolute path `r`, an open oracle
failing with `NotFound` everywhere, and one failing with `PermissionDenied`
everywhere. -/
theorem read_notfound_carries_absolute_path_witness :
    FileAssetReader.read ⟨⟨true, ["r"]⟩, 8⟩ (fun _ => .failure .notFound) ⟨false, ["a"]⟩
      = .error (.notFound ⟨true, ["r", "a"]⟩) ∧
    FileAssetReader.read_meta ⟨⟨true, ["r"]⟩, 8⟩ (fun _ => .failure .permissionDenied) ⟨false, ["a"]⟩
      = .error (.io .permissionDenied) := by
  constructor
  · exact (read_notfound_carries_absolute_path ⟨⟨true, ["r"]⟩, 8⟩
      (fun _ => .failure .notFound) ⟨false, ["a"]⟩ .notFound).1 (by decide)
  · exact (read_notfound_carries_absolute_path ⟨⟨true, ["r"]⟩, 8⟩
      (fun _ => .failure .permissionDenied) ⟨false, ["a"]⟩ .permissionDenied).2.2.2
        (by decide) (by decide)

/-- Creating or truncating a file makes its contents readable at that path. -/
theorem lookupFile_insertFile_self (fs : FileSys) (p : RustPath) (b : List Nat) :
    lookupFile (insertFile fs p b) p = some b := by
  simp [lookupFile, insertFile]

/-- Every prefix of `p` exists after `create_dir_all p`. -/
theorem dirExists_createDirAll (fs : FileSys) (p q : RustPath)
    (h : q ∈ prefixPathsOf p) : dirExists (createDirAll fs p) q = true := by
  have hmem : q ∈ prefixPathsOf p ++ fs.dirs := List.mem_append.mpr (Or.inl h)
  simpa [dirExists, createDirAll] using hmem

/-- C2: on a filesystem with no file at the resolved content (resp. metadata)
path, `read` (resp. `read_meta`) returns `NotFound`; and after `write(p)`
stores bytes `b`, `read(p)` against the updated filesystem succeeds and
returns exactly `b`. -/
theorem read_write_roundtrip (root : RustPath) (C : Nat) (fs : FileSys)
    (p : RustPath) (b : List Nat) :
    (lookupFile fs (joinPath root p) = none →
      FileAssetReader.read ⟨root, C⟩ (fsOpen fs) p
        = .error (.notFound (joinPath root p))) ∧
    (lookupFile fs (joinPath root (get_meta_path p)) = none →
      FileAssetReader.read_meta ⟨root, C⟩ (fsOpen fs) p
        = .error (.notFound (joinPath root (get_meta_path p)))) ∧
    FileAssetReader.read ⟨root, C⟩
      (fsOpen (FileAssetWriter.write ⟨root⟩ fs none p b).2) p = .ok b := by
  refine ⟨fun h => ?_, fun h => ?_, ?_⟩
  · simp [FileAssetReader.read, fsOpen, h]
  · simp [FileAssetReader.read_meta, fsOpen, h]
  · simp [FileAssetReader.read, FileAssetWriter.write, fsOpen, lookupFile_insertFile_self]

/-- Witness for C2: an empty filesystem, root `/r`, path `a.png`, bytes
`[1, 2, 3]`. -/
theorem read_write_roundtrip_witness :
    FileAssetReader.read ⟨⟨true, ["r"]⟩, 4⟩ (fsOpen ⟨[], []⟩) ⟨false, ["a.png"]⟩
      = .error (.notFound ⟨true, ["r", "a.png"]⟩) ∧
    FileAssetReader.read_meta ⟨⟨true, ["r"]⟩, 4⟩ (fsOpen ⟨[], []⟩) ⟨false, ["a.png"]⟩
      = .error (.notFound ⟨true, ["r", "a.png.meta"]⟩) ∧
    FileAssetReader.read ⟨⟨true, ["r"]⟩, 4⟩
      (fsOpen (FileAssetWriter.write ⟨⟨true, ["r"]⟩⟩ ⟨[], []⟩ none ⟨false, ["a.png"]⟩ [1, 2, 3]).2)
      ⟨false, ["a.png"]⟩ = .ok [1, 2, 3] :=
  ⟨(read_write_roundtrip ⟨true, ["r"]⟩ 4 ⟨[], []⟩ ⟨false, ["a.png"]⟩ [1, 2, 3]).1 (by decide),
   (read_write_roundtrip ⟨true, ["r"]⟩ 4 ⟨[], []⟩ ⟨false, ["a.png"]⟩ [1, 2, 3]).2.1 (by decide),
   (read_write_roundtrip ⟨true, ["r"]⟩ 4 ⟨[], []⟩ ⟨false, ["a.png"]⟩ [1, 2, 3]).2.2⟩

/-- C10: when the parent-directory chain is created but `File::create` then
fails with kind `e`, `write` returns that error while the filesystem keeps
every newly created parent directory; `write_meta` likewise returns the
error. -/
theorem write_error_keeps_created_dirs (w : FileAssetWriter) (fs : FileSys)
    (p : RustPath) (e : IoErrorKind) (b : List Nat) (parent : RustPath)
    (hp : parentOf (joinPath w.root_path p) = some parent) :
    (FileAssetWriter.write w fs (some e) p b).1 = .error (.io e) ∧
    (FileAssetWriter.write w fs (some e) p b).2 = createDirAll fs parent ∧
    (∀ q, q ∈ prefixPathsOf parent →
      dirExists (FileAssetWriter.write w fs (some e) p b).2 q = true) ∧
    (FileAssetWriter.write_meta w fs (some e) p b).1 = .error (.io e) := by
  refine ⟨?_, ?_, ?_, ?_⟩
  · simp [FileAssetWriter.write, hp]
  · simp [FileAssetWriter.write, hp]
  · intro q hq
    simp only [FileAssetWriter.write, hp]
    exact dirExists_createDirAll fs parent q hq
  · unfold FileAssetWriter.write_meta FileAssetWriter.write
    cases parentOf (joinPath w.root_path (get_meta_path p)) <;> simp

/-- Witness for C10: root `/r`, path `a/b.png`, a `PermissionDenied` create
failure; the parents `/r` and `/r/a` remain. -/
theorem write_error_keeps_created_dirs_witness :
    (FileAssetWriter.write ⟨⟨true, ["r"]⟩⟩ ⟨[], []⟩ (some .permissionDenied)
      ⟨false, ["a", "b.png"]⟩ [7]).1 = .error (.io .permissionDenied) ∧
    dirExists (FileAssetWriter.write ⟨⟨true, ["r"]⟩⟩ ⟨[], []⟩ (some .permissionDenied)
      ⟨false, ["a", "b.png"]⟩ [7]).2 ⟨true, ["r", "a"]⟩ = true := by
  constructor
  · exact (write_error_keeps_created_dirs ⟨⟨true, ["r"]⟩⟩ ⟨[], []⟩ ⟨false, ["a", "b.png"]⟩
      .permissionDenied [7] ⟨true, ["r", "a"]⟩ (by decide)).1
  · exact (write_error_keeps_created_dirs ⟨⟨true, ["r"]⟩⟩ ⟨[], []⟩ ⟨false, ["a", "b.png"]⟩
      .permissionDenied [7] ⟨true, ["r", "a"]⟩ (by decide)).2.2.1 ⟨true, ["r", "a"]⟩ (by decide)

/-- Reshaping of the entry closure on a readable entry: first the
`meta`-extension test, then the root strip with its panicking `unwrap`. -/
theorem processEntry_some_eq (root q : RustPath) :
    processEntry root (some q) =
      (match extMatchesMeta q, stripRoot root q with
       | true, _ => EntryResult.skip
       | false, some rel => .yield rel
       | false, none => .panic) := by
  simp only [processEntry, extMatchesMeta]
  cases hx : pathExtension q with
  | none => cases stripRoot root q <;> simp
  | some ext =>
    by_cases hm : eqIgnoreAsciiCase ext "meta" = true
    · simp [hm]
    · cases stripRoot root q <;> simp [eq_false_of_ne_true hm, hm]

/-- Characterization of the yielding branch of `read_directory`'s entry
closure: an entry is yielded exactly when it is a readable (`Ok`) entry
whose extension does not case-insensitively equal `meta` and whose root
prefix strips successfully. -/
theorem processEntry_eq_yield_iff (root : RustPath) (e : Option RustPath) (p : RustPath) :
    processEntry root e = .yield p ↔
      ∃ q, e = some q ∧ extMatchesMeta q = false ∧ stripRoot root q = some p := by
  cases e with
  | none => simp [processEntry]
  | some q =>
    rw [processEntry_some_eq]
    by_cases hm : extMatchesMeta q = true
    · simp [hm]
    · have hm' : extMatchesMeta q = false := eq_false_of_ne_true hm
      cases hs : stripRoot root q with
      | some rel => simp [hm', hs]
      | none => simp [hm', hs]

/-- Characterization of the panicking branch: the `strip_prefix(..).unwrap()`
panics exactly on a readable, non-meta entry whose path does not extend the
root. -/
theorem processEntry_eq_panic_iff (root : RustPath) (e : Option RustPath) :
    processEntry root e = .panic ↔
      ∃ q, e = some q ∧ extMatchesMeta q = false ∧ stripRoot root q = none := by
  cases e with
  | none => simp [processEntry]
  | some q =>
    cases hx : pathExtension q with
    | none =>
      cases hs : stripRoot root q <;>
        simp [processEntry, extMatchesMeta, hx, hs]
    | some ext =>
      by_cases hm : eqIgnoreAsciiCase ext "meta" = true
      · simp [processEntry, extMatchesMeta, hx, hm]
      · cases hs : stripRoot root q <;>
          simp [processEntry, extMatchesMeta, hx, hs, hm]

/-- Counterexample to C4 as stated: a directory of root `/assets` holding a
file named exactly `.meta` — its final segment ends with the metadata suffix
case-insensitively, yet `read_directory` yields it, because Rust treats a
leading-dot-only name as having no extension, so the `meta`-extension filter
does not fire. -/
theorem read_directory_yields_dotmeta_file :
    readDirectoryListing ⟨true, ["assets"]⟩ [some ⟨true, ["assets", ".meta"]⟩]
      = [EntryResult.yield ⟨false, [".meta"]⟩] ∧
    finalSegmentEndsWithMeta ⟨false, [".meta"]⟩ = true := by decide

/-- C4 as amended: the listing never yields an entry whose extension (the
portion of the final segment after its last dot, absent for leading-dot-only
names) case-insensitively equals `meta`; every yield originates from a
readable raw entry with the root prefix stripped, and conversely every
readable non-meta entry that extends the root is yielded. -/
theorem read_directory_filters_meta_extension (root : RustPath)
    (entries : List (Option RustPath)) :
    (∀ p, EntryResult.yield p ∈ readDirectoryListing root entries →
      ∃ q, some q ∈ entries ∧ extMatchesMeta q = false ∧ stripRoot root q = some p) ∧
    (∀ q rel, some q ∈ entries → extMatchesMeta q = false → stripRoot root q = some rel →
      EntryResult.yield rel ∈ readDirectoryListing root entries) := by
  constructor
  · intro p hp
    obtain ⟨e, he, hpe⟩ := List.mem_map.mp hp
    obtain ⟨q, rfl, hq1, hq2⟩ := (processEntry_eq_yield_iff root e p).mp hpe
    exact ⟨q, he, hq1, hq2⟩
  · intro q rel hq hm hs
    exact List.mem_map.mpr
      ⟨some q, hq, (processEntry_eq_yield_iff root (some q) rel).mpr ⟨q, rfl, hm, hs⟩⟩

/-- Witness for the amended C4: a listing containing `b.png` yields it, and
the yield is traced back to its raw entry. -/
theorem read_directory_filters_meta_extension_witness :
    ∃ q, some q ∈ [some (⟨true, ["r", "b.png"]⟩ : RustPath)] ∧
      extMatchesMeta q = false ∧
      stripRoot ⟨true, ["r"]⟩ q = some ⟨false, ["b.png"]⟩ :=
  (read_directory_filters_meta_extension ⟨true, ["r"]⟩
    [some ⟨true, ["r", "b.png"]⟩]).1 ⟨false, ["b.png"]⟩ (by decide)

/-- Counterexample to C8 as stated: `read_directory` called with the
absolute path `/d` on a reader rooted at `/r` — `Path::join` replaces the
root with the absolute argument, the raw entry `/d/x` does not extend `/r`,
and the closure's `strip_prefix(..).unwrap()` panics instead of skipping the
entry or returning a structured error. -/
theorem read_directory_strip_unwrap_panics :
    joinPath ⟨true, ["r"]⟩ ⟨true, ["d"]⟩ = ⟨true, ["d"]⟩ ∧
    readDirectoryListing ⟨true, ["r"]⟩ [some ⟨true, ["d", "x"]⟩]
      = [EntryResult.panic] := by decide

/-- C8 as amended: per-entry read failures (`Err` raw entries) are skipped
rather than aborting the listing, and the reader and writer operations
return structured `Except` errors; the one exception is `read_directory`,
which panics exactly on a readable non-meta entry whose path does not extend
the configured root. -/
theorem read_directory_panic_only_outside_root (root : RustPath)
    (e : Option RustPath) : processEntry root none = .skip ∧
    (processEntry root e = .panic ↔
      ∃ q, e = some q ∧ extMatchesMeta q = false ∧ stripRoot root q = none) :=
  ⟨rfl, processEntry_eq_panic_iff root e⟩

/-- Witness for the amended C8: an in-root entry does not panic, and the
out-of-root entry `/d/x` under root `/r` does. -/
theorem read_directory_panic_only_outside_root_witness :
    processEntry (⟨true, ["r"]⟩ : RustPath) none = .skip ∧
    processEntry ⟨true, ["r"]⟩ (some ⟨true, ["d", "x"]⟩) = .panic := by
  constructor
  · exact (read_directory_panic_only_outside_root ⟨true, ["r"]⟩ none).1
  · exact (read_directory_panic_only_outside_root ⟨true, ["r"]⟩
      (some ⟨true, ["d", "x"]⟩)).2.mpr ⟨⟨true, ["d", "x"]⟩, rfl, by decide, by decide⟩

/-- Every path is under itself. -/
theorem isUnder_refl (p : RustPath) : isUnder p p = true := by
  simp [isUnder, List.isPrefixOf_iff_prefix]

/-- A path is a member of its own prefix list. -/
theorem self_mem_prefixPathsOf (p : RustPath) : p ∈ prefixPathsOf p := by
  refine List.mem_map.mpr ⟨p.components.length, ?_, ?_⟩
  · simp [List.mem_range]
  · simp

/-- A prefix of `p` that is also under `p` is `p` itself. -/
theorem eq_of_mem_prefixPathsOf_isUnder (p q : RustPath)
    (hq : q ∈ prefixPathsOf p) (hu : isUnder p q = true) : q = p := by
  obtain ⟨n, _, rfl⟩ := List.mem_map.mp hq
  simp only [isUnder, Bool.and_eq_true, decide_eq_true_eq,
    List.isPrefixOf_iff_prefix] at hu
  have hlen : p.components.length ≤ (p.components.take n).length := hu.2.length_le
  have hn : p.components.length ≤ n := by
    rw [List.length_take] at hlen
    omega
  have htake : p.components.take n = p.components := List.take_of_length_le hn
  simp [htake]

/-- C7: a successful `remove_assets_in_directory` leaves the resolved
directory existing and empty, and it is the sequential composition of
`remove_dir_all` (after which the directory does not exist — the non-atomic
intermediate state) followed by `create_dir_all`. -/
theorem remove_assets_in_directory_clears (w : FileAssetWriter) (fs fs' : FileSys)
    (p : RustPath)
    (h : FileAssetWriter.remove_assets_in_directory w fs p = .ok fs') :
    dirExists fs' (joinPath w.root_path p) = true ∧
    dirIsEmpty fs' (joinPath w.root_path p) = true ∧
    ∃ mid, removeDirAll fs (joinPath w.root_path p) = .ok mid ∧
      dirExists mid (joinPath w.root_path p) = false ∧
      fs' = createDirAll mid (joinPath w.root_path p) := by
  unfold FileAssetWriter.remove_assets_in_directory at h
  generalize hfull : joinPath w.root_path p = full at h ⊢
  cases hrem : removeDirAll fs full with
  | error e => simp [hrem] at h
  | ok mid =>
    simp only [hrem, Except.ok.injEq] at h
    subst h
    have hmid : mid = FileSys.mk
        (fs.files.filter (fun e => (¬ isUnder full e.1 = true)))
        (fs.dirs.filter (fun d => (¬ isUnder full d = true))) := by
      unfold removeDirAll at hrem
      by_cases hc : fs.dirs.contains full = true
      · rw [if_pos hc] at hrem
        injection hrem with h2
        exact h2.symm
      · rw [if_neg hc] at hrem
        exact absurd hrem (by simp)
    have hnotmem : full ∉ mid.dirs := by
      rw [hmid]
      intro hmem
      have hpred := (List.mem_filter.mp hmem).2
      simp [isUnder_refl] at hpred
    refine ⟨?_, ?_, mid, rfl, ?_, rfl⟩
    · exact dirExists_createDirAll mid full full (self_mem_prefixPathsOf full)
    · simp only [dirIsEmpty, createDirAll, Bool.and_eq_true, List.all_eq_true]
      constructor
      · intro e he
        have hpred := (List.mem_filter.mp (hmid ▸ he)).2
        simpa using hpred
      · intro d hd
        rcases List.mem_append.mp hd with hd | hd
        · by_cases hu : isUnder full d = true
          · have hdfull : d = full := eq_of_mem_prefixPathsOf_isUnder full d hd hu
            simp [hdfull]
          · simp [hu]
        · have hpred := (List.mem_filter.mp (hmid ▸ hd)).2
          simp only [decide_not, Bool.not_eq_true', decide_eq_false_iff_not] at hpred
          simp [hpred]
    · simp [dirExists]
      exact hnotmem

/-- Witness for C7: clearing `cache` on a filesystem whose `cache` holds a
nested subdirectory with a file leaves `/r/cache` existing and empty. -/
theorem remove_assets_in_directory_clears_witness :
    dirExists sampleClearedFs ⟨true, ["r", "cache"]⟩ = true ∧
    dirIsEmpty sampleClearedFs ⟨true, ["r", "cache"]⟩ = true ∧
    ∃ mid, removeDirAll sampleNestedFs ⟨true, ["r", "cache"]⟩ = .ok mid ∧
      dirExists mid ⟨true, ["r", "cache"]⟩ = false ∧
      sampleClearedFs = createDirAll mid ⟨true, ["r", "cache"]⟩ :=
  remove_assets_in_directory_clears ⟨⟨true, ["r"]⟩⟩ sampleNestedFs sampleClearedFs
    ⟨false, ["cache"]⟩ (by rfl)

/-- Every step of the interleaving semantics preserves the capacity and
keeps the outstanding-permit count at or below it. -/
theorem sysStep_preserves (s t : SysState) (hstep : SysStep s t)
    (hout : s.outstanding ≤ s.capacity) :
    t.outstanding ≤ t.capacity ∧ t.capacity = s.capacity := by
  cases hstep with
  | acq i rest hget hlt => exact ⟨hlt, rfl⟩
  | fsOp i rest hget => exact ⟨hout, rfl⟩
  | rel i rest hget => exact ⟨Nat.le_trans (Nat.sub_le _ _) hout, rfl⟩

/-- C1: for every interleaving of concurrent `read`, `read_meta` and
`is_directory` operations on a reader whose limiter has capacity `C`, every
reachable state has at most `C` outstanding permits, and an acquisition
attempted while the count equals `C` is suspended (there is no failure
outcome). -/
theorem descriptor_limiter_never_exceeds_capacity (C : Nat)
    (ops : List (List IoAction)) (s : SysState)
    (hops : ∀ t ∈ ops, t = readActions ∨ t = readMetaActions ∨ t = isDirectoryActions)
    (hr : Reachable C ops s) :
    s.outstanding ≤ C ∧
    (s.outstanding = C → acquireAttempt s.outstanding C = .suspended) := by
  have key : s.outstanding ≤ s.capacity ∧ s.capacity = C := by
    induction hr with
    | init => exact ⟨Nat.zero_le _, rfl⟩
    | step hprev hstep ih =>
      obtain ⟨h1, h2⟩ := sysStep_preserves _ _ hstep ih.1
      exact ⟨h1, h2 ▸ ih.2⟩
  refine ⟨key.2 ▸ key.1, fun he => ?_⟩
  simp [acquireAttempt, he]

/-- Witness for C1: capacity 1 with one pending `read`; after its `acq` step
the count is 1 = C, and a further attempt is suspended. -/
theorem descriptor_limiter_never_exceeds_capacity_witness :
    (SysState.mk 1 1 [[IoAction.fsOp, IoAction.rel]]).outstanding ≤ 1 ∧
    ((SysState.mk 1 1 [[IoAction.fsOp, IoAction.rel]]).outstanding = 1 →
      acquireAttempt (SysState.mk 1 1 [[IoAction.fsOp, IoAction.rel]]).outstanding 1
        = .suspended) :=
  descriptor_limiter_never_exceeds_capacity 1 [readActions]
    (SysState.mk 1 1 [[IoAction.fsOp, IoAction.rel]])
    (by intro t ht; rw [List.mem_singleton] at ht; exact Or.inl ht)
    (Reachable.step Reachable.init
      (SysStep.acq (initState 1 [readActions]) 0 [IoAction.fsOp, IoAction.rel]
        (by rfl) (by decide)))
